import Mathlib

/-!
Verification of the duplex relay session in `src/app.py`: a FastAPI WebSocket
endpoint that bridges a browser audio socket to the Youdao streaming
speech-translation WebSocket.  Pure helpers (`sha256`, `build_youdao_url`) are
embedded as Lean functions on strings and byte lists; the two concurrent
forwarding coroutines (`browser_to_youdao`, `youdao_to_browser`) are embedded
as recursive functions over explicit event lists, with the concurrently
mutated flags (`browser_closed`, the upstream socket's open/closed state, and
per-send outcomes) supplied as explicit inputs so that every interleaving of
flag reads is covered by quantification.
-/

/-- A byte string: each entry is one byte value (`< 256` for real data). -/
abbrev Bytes := List Nat

/-- Truncate to a 32-bit word, as Python's fixed-width hash arithmetic does. -/
def w32 (x : Nat) : Nat := x % 2 ^ 32

/-- Rotate a 32-bit word right by `n` bits. -/
def rotr32 (n x : Nat) : Nat := w32 ((x >>> n) ||| (x <<< (32 - n)))

/-- UTF-8 encoding of a single character (the standard 1–4 byte scheme used by
Python's `str.encode("utf-8")`). -/
def utf8Char (c : Char) : Bytes :=
  let n := c.toNat
  if n < 0x80 then [n]
  else if n < 0x800 then
    [0xC0 ||| (n >>> 6), 0x80 ||| (n &&& 0x3F)]
  else if n < 0x10000 then
    [0xE0 ||| (n >>> 12), 0x80 ||| ((n >>> 6) &&& 0x3F), 0x80 ||| (n &&& 0x3F)]
  else
    [0xF0 ||| (n >>> 18), 0x80 ||| ((n >>> 12) &&& 0x3F),
     0x80 ||| ((n >>> 6) &&& 0x3F), 0x80 ||| (n &&& 0x3F)]

/-- UTF-8 encoding of a string, as `s.encode("utf-8")` in `sha256` (app.py:33). -/
def utf8 (s : String) : Bytes := s.data.flatMap utf8Char

/-- Lowercase hexadecimal digit for `n < 16`, as Python's `hexdigest` emits. -/
def hexChar (n : Nat) : Char :=
  if n < 10 then Char.ofNat (48 + n) else Char.ofNat (87 + n)

/-- The two lowercase hex digits of one byte. -/
def hexByte (b : Nat) : List Char := [hexChar (b / 16 % 16), hexChar (b % 16)]

/-- Lowercase hex rendering of a byte string (Python `hashlib`'s `hexdigest`). -/
def hexOfBytes (bs : Bytes) : String := String.mk (bs.flatMap hexByte)

/-- SHA-256 round constants (FIPS 180-4), written in decimal. -/
def sha256K : List Nat :=
  [1116352408, 1899447441, 3049323471, 3921009573, 961987163,
   1508970993, 2453635748, 2870763221, 3624381080, 310598401,
   607225278, 1426881987, 1925078388, 2162078206, 2614888103,
   3248222580, 3835390401, 4022224774, 264347078, 604807628,
   770255983, 1249150122, 1555081692, 1996064986, 2554220882,
   2821834349, 2952996808, 3210313671, 3336571891, 3584528711,
   113926993, 338241895, 666307205, 773529912, 1294757372,
   1396182291, 1695183700, 1986661051, 2177026350, 2456956037,
   2730485921, 2820302411, 3259730800, 3345764771, 3516065817,
   3600352804, 4094571909, 275423344, 430227734, 506948616,
   659060556, 883997877, 958139571, 1322822218, 1537002063,
   1747873779, 1955562222, 2024104815, 2227730452, 2361852424,
   2428436474, 2756734187, 3204031479, 3329325298]

/-- SHA-256 initial hash state (FIPS 180-4), written in decimal. -/
def sha256H0 : List Nat :=
  [1779033703, 3144134277, 1013904242, 2773480762,
   1359893119, 2600822924, 528734635, 1541459225]

def bsig0 (x : Nat) : Nat := rotr32 2 x ^^^ rotr32 13 x ^^^ rotr32 22 x

def bsig1 (x : Nat) : Nat := rotr32 6 x ^^^ rotr32 11 x ^^^ rotr32 25 x

def ssig0 (x : Nat) : Nat := rotr32 7 x ^^^ rotr32 18 x ^^^ (x >>> 3)

def ssig1 (x : Nat) : Nat := rotr32 17 x ^^^ rotr32 19 x ^^^ (x >>> 10)

def chF (x y z : Nat) : Nat := (x &&& y) ^^^ ((x ^^^ 0xffffffff) &&& z)

def majF (x y z : Nat) : Nat := (x &&& y) ^^^ (x &&& z) ^^^ (y &&& z)

/-- `k` bytes of `n`, big-endian. -/
def beBytes : Nat → Nat → Bytes
  | 0, _ => []
  | k + 1, n => beBytes k (n >>> 8) ++ [n % 256]

/-- SHA-256 message padding: append `0x80`, zero bytes to 56 mod 64, then the
bit length as 8 big-endian bytes. -/
def sha256pad (msg : Bytes) : Bytes :=
  let r := (msg.length + 1) % 64
  msg ++ [0x80] ++ List.replicate ((56 + 64 - r) % 64) 0 ++ beBytes 8 (8 * msg.length)

/-- Group bytes into big-endian 32-bit words. -/
def bytesToWords : Bytes → List Nat
  | a :: b :: c :: d :: rest => (((a * 256 + b) * 256 + c) * 256 + d) :: bytesToWords rest
  | _ => []

/-- Group a word list into 16-word blocks. -/
def chunk16 (ws : List Nat) : List (List Nat) :=
  if h : ws = [] then []
  else ws.take 16 :: chunk16 (ws.drop 16)
termination_by ws.length
decreasing_by
  have : 0 < ws.length := List.length_pos.mpr h
  simp only [List.length_drop]
  omega

/-- The 64-entry SHA-256 message schedule of one block. -/
def sched (blk : List Nat) : List Nat :=
  (List.range 48).foldl
    (fun ws i =>
      let t := i + 16
      ws ++ [w32 (ssig1 (ws.getD (t - 2) 0) + ws.getD (t - 7) 0 +
                  ssig0 (ws.getD (t - 15) 0) + ws.getD (t - 16) 0)])
    (blk.take 16)

/-- One SHA-256 round on the 8-word working state. -/
def sha256Round (k w : Nat) : List Nat → List Nat
  | [a, b, c, d, e, f, g, h] =>
    let t1 := w32 (h + bsig1 e + chF e f g + k + w)
    let t2 := w32 (bsig0 a + majF a b c)
    [w32 (t1 + t2), a, b, c, w32 (d + t1), e, f, g]
  | s => s

/-- Compress one 16-word block into the running hash state. -/
def compress (h : List Nat) (blk : List Nat) : List Nat :=
  let final := (sha256K.zip (sched blk)).foldl (fun st kw => sha256Round kw.1 kw.2 st) h
  List.zipWith (fun x y => w32 (x + y)) h final

/-- SHA-256 digest of a byte string, as 32 bytes. -/
def sha256Bytes (msg : Bytes) : Bytes :=
  ((chunk16 (bytesToWords (sha256pad msg))).foldl compress sha256H0).flatMap (beBytes 4)

/-- `sha256` (app.py:31-34): UTF-8 encode the string, hash it, render the
digest as lowercase hex. -/
def sha256 (s : String) : String := hexOfBytes (sha256Bytes (utf8 s))

/-- The `sign` value computed in `build_youdao_url` (app.py:42):
`sha256(app_key + salt + curtime + app_secret)`, Python string concatenation. -/
def youdao_sign (app_key app_secret salt curtime : String) : String :=
  sha256 (app_key ++ salt ++ curtime ++ app_secret)

/-- The spec's signature formula (§4.1): the lowercase hex SHA-256 digest of
the byte-string concatenation of the UTF-8 encodings of key, nonce, timestamp
and secret, each operand encoded separately, in that exact order. -/
def spec_signature (key nonce timestamp secret : String) : String :=
  hexOfBytes (sha256Bytes (utf8 key ++ utf8 nonce ++ utf8 timestamp ++ utf8 secret))

/-- `YOUDAO_WS_BASE` (app.py:24). -/
def YOUDAO_WS_BASE : String := "wss://openapi.youdao.com/stream_speech_trans"

/-- The characters `urllib.parse.quote_plus` never escapes: ASCII letters,
digits, and `_ . - ~`. -/
def isUrlSafe (c : Char) : Bool :=
  (65 ≤ c.toNat && c.toNat ≤ 90) || (97 ≤ c.toNat && c.toNat ≤ 122) ||
  (48 ≤ c.toNat && c.toNat ≤ 57) || c = '_' || c = '.' || c = '-' || c = '~'

/-- Uppercase hexadecimal digit for `n < 16`, used by percent-encoding. -/
def hexCharUpper (n : Nat) : Char :=
  if n < 10 then Char.ofNat (48 + n) else Char.ofNat (55 + n)

/-- Percent-encoding of one byte: `%XX` with uppercase hex. -/
def pctByte (b : Nat) : List Char :=
  ['%', hexCharUpper (b / 16 % 16), hexCharUpper (b % 16)]

/-- `urllib.parse.quote_plus` with empty `safe`, as `urlencode` applies to each
key and value: safe characters pass through, space becomes `+`, every other
character is percent-encoded byte-by-byte from its UTF-8 encoding. -/
def quote_plus (s : String) : String :=
  String.mk (s.data.flatMap fun c =>
    if isUrlSafe c then [c]
    else if c = ' ' then ['+']
    else (utf8Char c).flatMap pctByte)

/-- `urllib.parse.urlencode`: `k=v` pairs quoted with `quote_plus` and joined
with `&`, in the order given (Python dicts preserve insertion order). -/
def urlencode : List (String × String) → String
  | [] => ""
  | [p] => quote_plus p.1 ++ "=" ++ quote_plus p.2
  | p :: ps => quote_plus p.1 ++ "=" ++ quote_plus p.2 ++ "&" ++ urlencode ps

/-- `build_youdao_url` (app.py:37-58).  The source draws `salt` from
`uuid.uuid4().hex` and `curtime` from `str(int(time.time()))`; both are
nondeterministic, so they are injected as parameters here (the spec, §4.1,
requires the function to be deterministic given injected nonce and
timestamp).  Everything else — the parameter list, its order, the constant
values, and the signature — follows the source line by line. -/
def build_youdao_url (app_key app_secret : String)
    (from_lang : String := "en-US") (to_lang : String := "zh-CHS")
    (salt curtime : String := "") : String :=
  YOUDAO_WS_BASE ++ "?" ++ urlencode
    [("appKey", app_key),
     ("salt", salt),
     ("curtime", curtime),
     ("signType", "v4"),
     ("sign", youdao_sign app_key app_secret salt curtime),
     ("from", from_lang),
     ("to", to_lang),
     ("format", "wav"),
     ("rate", "16000"),
     ("channel", "1"),
     ("version", "v1")]

/-- Split a character list at every `&`, keeping empty groups. -/
def splitOnAmp : List Char → List (List Char)
  | [] => [[]]
  | c :: cs =>
    match splitOnAmp cs with
    | [] => [[]]
    | g :: gs => if c = '&' then [] :: g :: gs else (c :: g) :: gs

/-- Read one `key=value` component: the key is everything before the first
`=`, the value everything after it. -/
def parsePair (l : List Char) : String × String :=
  (String.mk (l.takeWhile (· ≠ '=')), String.mk ((l.dropWhile (· ≠ '=')).drop 1))

/-- Decode a query string back into its ordered key/value pairs. -/
def parseQuery (q : String) : List (String × String) :=
  (splitOnAmp q.data).map parsePair

/-- A string is plain when every character is URL-safe, so `quote_plus`
leaves it untouched. -/
def plainStr (s : String) : Bool := s.data.all isUrlSafe

/-- A JSON-like value: what Python's `json.loads` produces and the shapes
(`{"raw": msg}`) the relay builds itself. -/
inductive J where
  | null
  | bool (b : Bool)
  | num (n : Int)
  | str (s : String)
  | arr (xs : List J)
  | obj (kvs : List (String × J))

/-- One frame written to the upstream (Youdao) socket: a binary audio chunk
(`send_audio`) or the end-of-audio control frame (`send_end`). -/
inductive UpMsg where
  | audio (chunk : Bytes)
  | endOfAudio
deriving DecidableEq

/-- The byte payload of the end-of-audio control frame: the literal
`b'{"end":"true"}'` of app.py:95. -/
def end_payload : Bytes := utf8 "\x7b\"end\":\"true\"\x7d"

/-- The bytes each upstream frame carries on the wire. -/
def wireBytes : UpMsg → Bytes
  | UpMsg.audio chunk => chunk
  | UpMsg.endOfAudio => end_payload

/-- One outcome of `await websocket.receive()` in `browser_to_youdao`: a
message carrying optional binary and text payloads (`msg["bytes"]` absent and
`None` behave identically, so both are `none`), a client disconnect (raises
`WebSocketDisconnect`), or any other error raised while receiving or
forwarding (the bare `except Exception` path). -/
inductive ClientEv where
  | msg (bytes? : Option Bytes) (text? : Option String)
  | disconnect
  | err
deriving DecidableEq

/-- The session state `browser_to_youdao` reads and writes: the two
closed-flags of `translate_ws` (app.py:138-139), whether the upstream socket
is open (`self.ws and not self.ws.closed` — it closes only by external
action, never inside this direction), and the accumulated trace of frames
sent to upstream. -/
structure BState where
  browser_closed : Bool
  youdao_closed : Bool
  wsOpen : Bool
  upTrace : List UpMsg
deriving DecidableEq

/-- The state both directions start from: flags false (app.py:138-139), a
freshly opened upstream socket, nothing sent yet. -/
def initState : BState :=
  { browser_closed := false, youdao_closed := false, wsOpen := true, upTrace := [] }

/-- `send_audio` (app.py:87-89): write the chunk only while the upstream
socket is open; otherwise silently do nothing. -/
def send_audio (s : BState) (chunk : Bytes) : BState :=
  if s.wsOpen then { s with upTrace := s.upTrace ++ [UpMsg.audio chunk] } else s

/-- The bare `await self.ws.send(b'{"end":"true"}')` inside `send_end`: it
either puts the frame on the wire or raises (the connection died mid-call). -/
def ws_send_end (sendFails : Bool) : Except String (List UpMsg) :=
  if sendFails then Except.error "ConnectionClosed" else Except.ok [UpMsg.endOfAudio]

/-- `send_end` (app.py:91-98): when the socket is open, try the send and
swallow any exception (`except: pass`); when closed or never opened, do
nothing.  The result is the list of frames that reached the wire; it is
always `Except.ok` — no error escapes to the caller. -/
def send_end (wsOpen sendFails : Bool) : Except String (List UpMsg) :=
  if wsOpen then
    match ws_send_end sendFails with
    | Except.ok t => Except.ok t
    | Except.error _ => Except.ok []
  else Except.ok []

/-- The frames `send_end` puts on the wire. -/
def send_end_wire (wsOpen sendFails : Bool) : List UpMsg :=
  match send_end wsOpen sendFails with
  | Except.ok t => t
  | Except.error _ => []

/-- `browser_to_youdao` (app.py:145-166), as a function of the sequence of
`websocket.receive()` outcomes.  A message with a binary payload goes through
`send_audio`; a message whose text is exactly `"END"` triggers `send_end`,
sets `youdao_closed` and breaks; any other message is skipped and the loop
waits for the next one; a disconnect or error sets `browser_closed`, triggers
`send_end` and ends the direction.  `endSendFails` is whether the one
possible `ws.send` inside `send_end` raises. -/
def browser_to_youdao (endSendFails : Bool) : List ClientEv → BState → BState
  | [], s => s
  | ClientEv.msg b? t? :: rest, s =>
    match b? with
    | some chunk => browser_to_youdao endSendFails rest (send_audio s chunk)
    | none =>
      if t? = some "END" then
        { s with upTrace := s.upTrace ++ send_end_wire s.wsOpen endSendFails,
                 youdao_closed := true }
      else
        browser_to_youdao endSendFails rest s
  | ClientEv.disconnect :: _, s =>
    { s with browser_closed := true,
             upTrace := s.upTrace ++ send_end_wire s.wsOpen endSendFails }
  | ClientEv.err :: _, s =>
    { s with browser_closed := true,
             upTrace := s.upTrace ++ send_end_wire s.wsOpen endSendFails }

/-- `recv_messages` (app.py:100-114): every frame read from the upstream
socket is parsed with `json.loads`; a frame that fails to parse is yielded as
the raw-fallback dict `{"raw": msg}` instead — the per-frame `try` means no
parse failure escapes to the consumer.  `json.loads` is library code, so the
parser is a parameter.  `closedOk` records whether the iteration ended with
`ConnectionClosedOK` (normal closure, silent return) or another exception
(logged); both merely end the yielded sequence. -/
def recv_messages (parse : String → Option J) (frames : List String)
    (closedOk : Bool) : List J :=
  match closedOk with
  | true => frames.map fun f => (parse f).getD (J.obj [("raw", J.str f)])
  | false => frames.map fun f => (parse f).getD (J.obj [("raw", J.str f)])

/-- One iteration of `youdao_to_browser`'s loop: the message yielded by
`recv_messages`, the value of `browser_closed` read at that iteration (it is
mutated concurrently by `browser_to_youdao`, so it is an input here), and
whether `websocket.send_text` succeeds at this step if attempted. -/
structure Y2BStep where
  data : J
  browserClosed : Bool
  sendOk : Bool

/-- `youdao_to_browser` (app.py:168-177): forward each upstream message to
the browser unless `browser_closed` is set at that moment; a send failure is
caught by the outer `except` and ends the direction; the `finally` block
always sets `youdao_closed`.  Returns the browser-bound sends attempted, in
order, and the final value of `youdao_closed`. -/
def youdao_to_browser : List Y2BStep → List J × Bool
  | [] => ([], true)
  | st :: rest =>
    if st.browserClosed then youdao_to_browser rest
    else if st.sendOk then
      let r := youdao_to_browser rest
      (st.data :: r.1, r.2)
    else ([st.data], true)

/-- The language selection of `translate_ws` (app.py:135-136): the handler
assigns `from_lang = "zh-CHS"` and `to_lang = "en-US"` unconditionally and
never reads `websocket.query_params`.  It is modelled as a function of the
request's query parameters so the spec's extraction claim can be stated. -/
def translate_ws_langs (_queryParams : List (String × String)) : String × String :=
  ("zh-CHS", "en-US")

/-- What the spec (§4.4, §6) says the endpoint does with the request
parameters: read keys `from` and `to`, falling back to fixed defaults only
when the key is absent. -/
def spec_langs (defFrom defTo : String)
    (queryParams : List (String × String)) : String × String :=
  ((queryParams.lookup "from").getD defFrom, (queryParams.lookup "to").getD defTo)

/-- The observable outcome of one `translate_ws` session. -/
structure SessionResult where
  upTrace : List UpMsg
  browserTrace : List J
  closeAttempted : Bool
  escaped : Bool

/-- `translate_ws` (app.py:130-185): accept, fix the language pair, enter
`YoudaoStreamClient` (`__aenter__`, app.py:70-78, where `websockets.connect`
may raise), run both directions to completion, then try to close the browser
socket, swallowing failure.  `connectOk` models whether `websockets.connect`
succeeds; when it raises, the `async with` body never runs and the exception
escapes the handler — there is no surrounding `try`. -/
def translate_ws (connectOk endSendFails : Bool) (evs : List ClientEv)
    (steps : List Y2BStep) : SessionResult :=
  if connectOk then
    let s := browser_to_youdao endSendFails evs initState
    let r := youdao_to_browser steps
    { upTrace := s.upTrace, browserTrace := r.1, closeAttempted := true, escaped := false }
  else
    { upTrace := [], browserTrace := [], closeAttempted := false, escaped := true }

/-- What the client and operator observe of one session. -/
structure EndpointOutcome where
  result : SessionResult
  clientClosed : Bool
  errorRecorded : Bool

/-- Modelled from the spec: the hosting framework around `translate_ws` is
not in `src/` (the spec, §1, lists the serving layer as an external
collaborator that supplies the validated client socket and the place errors
are logged).  When an exception escapes a WebSocket endpoint the framework
records the error and closes the client connection; when the endpoint
returns normally it has already attempted the close itself (app.py:182-185). -/
def run_endpoint (connectOk endSendFails : Bool) (evs : List ClientEv)
    (steps : List Y2BStep) : EndpointOutcome :=
  let r := translate_ws connectOk endSendFails evs steps
  { result := r,
    clientClosed := r.closeAttempted || r.escaped,
    errorRecorded := r.escaped }

/-- Whether an upstream frame is an audio chunk. -/
def isAudio : UpMsg → Bool
  | UpMsg.audio _ => true
  | UpMsg.endOfAudio => false

/-- No audio chunk appears after the first end-of-audio frame of a trace. -/
def noAudioAfterEnd : List UpMsg → Bool
  | [] => true
  | UpMsg.audio _ :: rest => noAudioAfterEnd rest
  | UpMsg.endOfAudio :: rest => rest.all fun m => !isAudio m

theorem send_end_wire_eq (o f : Bool) :
    send_end_wire o f = if o && !f then [UpMsg.endOfAudio] else [] := by
  cases o <;> cases f <;> rfl

theorem b2y_audio_chunks (f : Bool) (chunks : List Bytes) (rest : List ClientEv)
    (s : BState) (h : s.wsOpen = true) :
    browser_to_youdao f (chunks.map (fun c => ClientEv.msg (some c) none) ++ rest) s
      = browser_to_youdao f rest { s with upTrace := s.upTrace ++ chunks.map UpMsg.audio } := by
  induction chunks generalizing s with
  | nil => cases s; simp
  | cons c cs ih =>
    simp only [List.map_cons, List.cons_append, browser_to_youdao, List.append_eq]
    rw [send_audio, if_pos h]
    rw [ih { s with upTrace := s.upTrace ++ [UpMsg.audio c] } h]
    simp [List.append_assoc]

theorem allAudio_noAudioAfterEnd (t : List UpMsg) (h : t.all isAudio = true) :
    noAudioAfterEnd t = true := by
  induction t with
  | nil => rfl
  | cons m rest ih =>
    cases m with
    | audio c =>
      simp only [List.all_cons, Bool.and_eq_true] at h
      exact ih h.2
    | endOfAudio => simp [isAudio] at h

theorem allAudio_append_end (t : List UpMsg) (h : t.all isAudio = true) :
    noAudioAfterEnd (t ++ [UpMsg.endOfAudio]) = true := by
  induction t with
  | nil => rfl
  | cons m rest ih =>
    cases m with
    | audio c =>
      simp only [List.all_cons, Bool.and_eq_true] at h
      exact ih h.2
    | endOfAudio => simp [isAudio] at h

theorem allAudio_append_wire (t : List UpMsg) (o f : Bool) (h : t.all isAudio = true) :
    noAudioAfterEnd (t ++ send_end_wire o f) = true := by
  rw [send_end_wire_eq]
  by_cases hc : (o && !f) = true
  · rw [if_pos hc]; exact allAudio_append_end t h
  · rw [if_neg hc]; rw [List.append_nil]; exact allAudio_noAudioAfterEnd t h

theorem b2y_noAudioAfterEnd (f : Bool) (evs : List ClientEv) (s : BState)
    (h : s.upTrace.all isAudio = true) :
    noAudioAfterEnd ((browser_to_youdao f evs s).upTrace) = true := by
  induction evs generalizing s with
  | nil => exact allAudio_noAudioAfterEnd _ h
  | cons ev rest ih =>
    cases ev with
    | msg b? t? =>
      cases b? with
      | some chunk =>
        simp only [browser_to_youdao]
        apply ih
        rw [send_audio]
        by_cases hw : s.wsOpen = true
        · rw [if_pos hw]
          simp only [List.all_append, Bool.and_eq_true]
          exact ⟨h, rfl⟩
        · rw [if_neg hw]; exact h
      | none =>
        simp only [browser_to_youdao]
        by_cases ht : t? = some "END"
        · rw [if_pos ht]
          exact allAudio_append_wire _ _ _ h
        · rw [if_neg ht]; exact ih _ h
    | disconnect =>
      simp only [browser_to_youdao]
      exact allAudio_append_wire _ _ _ h
    | err =>
      simp only [browser_to_youdao]
      exact allAudio_append_wire _ _ _ h

/-- C1: for an ordered sequence of binary chunks followed by the text frame
`"END"`, the client-to-upstream direction sends exactly those chunks, once
each, in order, then exactly one end-of-audio control frame; and (second
conjunct, for every event sequence) no audio chunk is ever sent after the
end-of-audio frame. -/
theorem C1_chunks_then_end_exact :
    (∀ chunks : List Bytes,
      (browser_to_youdao false
          (chunks.map (fun c => ClientEv.msg (some c) none)
            ++ [ClientEv.msg none (some "END")]) initState).upTrace
        = chunks.map UpMsg.audio ++ [UpMsg.endOfAudio]) ∧
    (∀ f : Bool, ∀ evs : List ClientEv,
      noAudioAfterEnd ((browser_to_youdao f evs initState).upTrace) = true) := by
  constructor
  · intro chunks
    rw [b2y_audio_chunks false chunks _ initState rfl]
    simp [browser_to_youdao, initState, send_end_wire_eq]
  · intro f evs
    exact b2y_noAudioAfterEnd f evs initState rfl

/-- C2: if the client side raises (disconnect or any other receive error)
after `N` chunks with no explicit `"END"`, the direction terminates with the
client marked closed and the upstream trace is exactly the `N` chunks
followed by exactly one end-of-audio frame — for both the
`WebSocketDisconnect` path and the generic-exception path. -/
theorem C2_disconnect_sends_end_once :
    ∀ chunks : List Bytes,
      (((browser_to_youdao false
          (chunks.map (fun c => ClientEv.msg (some c) none) ++ [ClientEv.disconnect])
          initState).upTrace = chunks.map UpMsg.audio ++ [UpMsg.endOfAudio]) ∧
        ((browser_to_youdao false
          (chunks.map (fun c => ClientEv.msg (some c) none) ++ [ClientEv.disconnect])
          initState).browser_closed = true)) ∧
      (((browser_to_youdao false
          (chunks.map (fun c => ClientEv.msg (some c) none) ++ [ClientEv.err])
          initState).upTrace = chunks.map UpMsg.audio ++ [UpMsg.endOfAudio]) ∧
        ((browser_to_youdao false
          (chunks.map (fun c => ClientEv.msg (some c) none) ++ [ClientEv.err])
          initState).browser_closed = true)) := by
  intro chunks
  rw [b2y_audio_chunks false chunks _ initState rfl,
      b2y_audio_chunks false chunks _ initState rfl]
  simp [browser_to_youdao, initState, send_end_wire_eq]

/-- The number of end-of-audio frames in a trace. -/
def countEnd : List UpMsg → Nat
  | [] => 0
  | UpMsg.audio _ :: rest => countEnd rest
  | UpMsg.endOfAudio :: rest => countEnd rest + 1

theorem countEnd_append (a b : List UpMsg) :
    countEnd (a ++ b) = countEnd a + countEnd b := by
  induction a with
  | nil => simp [countEnd]
  | cons m rest ih =>
    cases m <;> simp [countEnd, ih] <;> omega

theorem allAudio_countEnd (t : List UpMsg) (h : t.all isAudio = true) :
    countEnd t = 0 := by
  induction t with
  | nil => rfl
  | cons m rest ih =>
    cases m with
    | audio c =>
      simp only [List.all_cons, Bool.and_eq_true] at h
      exact ih h.2
    | endOfAudio => simp [isAudio] at h

theorem countEnd_wire (o f : Bool) : countEnd (send_end_wire o f) ≤ 1 := by
  cases o <;> cases f <;> simp [send_end_wire, send_end, ws_send_end, countEnd]

theorem b2y_countEnd (f : Bool) (evs : List ClientEv) (s : BState)
    (h : s.upTrace.all isAudio = true) :
    countEnd ((browser_to_youdao f evs s).upTrace) ≤ 1 := by
  induction evs generalizing s with
  | nil =>
    simp only [browser_to_youdao]
    rw [allAudio_countEnd _ h]
    omega
  | cons ev rest ih =>
    have hterm : countEnd (s.upTrace ++ send_end_wire s.wsOpen f) ≤ 1 := by
      rw [countEnd_append, allAudio_countEnd _ h]
      have := countEnd_wire s.wsOpen f
      omega
    cases ev with
    | msg b? t? =>
      cases b? with
      | some chunk =>
        simp only [browser_to_youdao]
        apply ih
        rw [send_audio]
        by_cases hw : s.wsOpen = true
        · rw [if_pos hw]
          simp only [List.all_append, Bool.and_eq_true]
          exact ⟨h, rfl⟩
        · rw [if_neg hw]; exact h
      | none =>
        simp only [browser_to_youdao]
        by_cases ht : t? = some "END"
        · rw [if_pos ht]; exact hterm
        · rw [if_neg ht]; exact ih _ h
    | disconnect => exact hterm
    | err => exact hterm

/-- C9: `send_end` sends the end-of-audio frame with the exact byte payload
`{"end":"true"}`; on a closed (or never-opened) socket it is a no-op; a send
error is swallowed, so the call always returns `Except.ok`, never an error,
with at most one frame on the wire; and over any whole run of the
client-to-upstream direction the end frame is sent at most once. -/
theorem C9_send_end_contract :
    (wireBytes UpMsg.endOfAudio
        = [123, 34, 101, 110, 100, 34, 58, 34, 116, 114, 117, 101, 34, 125]) ∧
    (∀ fails : Bool, send_end false fails = Except.ok []) ∧
    (∀ wsOpen fails : Bool,
      ∃ t, send_end wsOpen fails = Except.ok t ∧ countEnd t ≤ 1) ∧
    (∀ (f : Bool) (evs : List ClientEv),
      countEnd ((browser_to_youdao f evs initState).upTrace) ≤ 1) := by
  refine ⟨by decide, fun fails => by cases fails <;> rfl, ?_, ?_⟩
  · intro wsOpen fails
    cases wsOpen <;> cases fails <;> exact ⟨_, rfl, by simp [countEnd]⟩
  · intro f evs
    exact b2y_countEnd f evs initState rfl

/-- C10: a client message with no binary payload and a text payload other
than the literal `"END"` is silently dropped: nothing is forwarded upstream,
no end-of-audio frame is sent, no flag changes, and the loop simply
continues with the next message. -/
theorem C10_other_frames_skipped :
    ∀ (f : Bool) (b? : Option Bytes) (t? : Option String)
      (rest : List ClientEv) (s : BState),
      b? = none → t? ≠ some "END" →
      browser_to_youdao f (ClientEv.msg b? t? :: rest) s
        = browser_to_youdao f rest s := by
  intro f b? t? rest s hb ht
  subst hb
  simp only [browser_to_youdao]
  rw [if_neg ht]

theorem C10_witness :
    browser_to_youdao false [ClientEv.msg none (some "hello")] initState
      = browser_to_youdao false [] initState :=
  C10_other_frames_skipped false none (some "hello") [] initState rfl (by decide)

theorem y2b_all_closed (steps : List Y2BStep)
    (h : ∀ st ∈ steps, st.browserClosed = true) :
    youdao_to_browser steps = ([], true) := by
  induction steps with
  | nil => rfl
  | cons st rest ih =>
    have hst := h st (List.mem_cons_self st rest)
    simp only [youdao_to_browser, hst, if_true]
    exact ih fun x hx => h x (List.mem_cons_of_mem st hx)

/-- C3: in the upstream-to-client direction every message forwarded to the
client comes from an iteration at which the client-closed flag read `false`
(so nothing is forwarded once the client leg is marked closed — appending
any suffix of closed-flag iterations changes nothing); when the `receive()`
sequence ends the direction stops, having attempted at most one send per
yielded message, and always marks the upstream leg closed. -/
theorem C3_forward_only_while_open :
    (∀ steps : List Y2BStep, ∀ d ∈ (youdao_to_browser steps).1,
      ∃ st ∈ steps, st.data = d ∧ st.browserClosed = false) ∧
    (∀ pre post : List Y2BStep, (∀ st ∈ post, st.browserClosed = true) →
      (youdao_to_browser (pre ++ post)).1 = (youdao_to_browser pre).1) ∧
    (∀ steps : List Y2BStep,
      (youdao_to_browser steps).1.length ≤ steps.length ∧
      (youdao_to_browser steps).2 = true) := by
  refine ⟨?_, ?_, ?_⟩
  · intro steps
    induction steps with
    | nil => intro d hd; simp [youdao_to_browser] at hd
    | cons st rest ih =>
      intro d hd
      by_cases hb : st.browserClosed = true
      · simp only [youdao_to_browser, hb, if_true] at hd
        obtain ⟨st2, hmem, he⟩ := ih d hd
        exact ⟨st2, List.mem_cons_of_mem st hmem, he⟩
      · rw [Bool.not_eq_true] at hb
        by_cases hs : st.sendOk = true
        · simp only [youdao_to_browser, hb, hs, Bool.false_eq_true, if_false, if_true,
            List.mem_cons] at hd
          rcases hd with rfl | hd
          · exact ⟨st, List.mem_cons_self st rest, rfl, hb⟩
          · obtain ⟨st2, hmem, he⟩ := ih d hd
            exact ⟨st2, List.mem_cons_of_mem st hmem, he⟩
        · rw [Bool.not_eq_true] at hs
          simp only [youdao_to_browser, hb, hs, Bool.false_eq_true, if_false,
            List.mem_singleton] at hd
          exact ⟨st, List.mem_cons_self st rest, hd.symm, hb⟩
  · intro pre post hpost
    induction pre with
    | nil =>
      simp only [List.nil_append]
      rw [y2b_all_closed post hpost]
      rfl
    | cons st rest ih =>
      by_cases hb : st.browserClosed = true
      · simp only [List.cons_append, youdao_to_browser, hb, if_true]
        exact ih
      · rw [Bool.not_eq_true] at hb
        by_cases hs : st.sendOk = true
        · simp only [List.cons_append, youdao_to_browser, hb, hs,
            Bool.false_eq_true, if_false, if_true]
          exact congrArg (fun l => st.data :: l) ih
        · rw [Bool.not_eq_true] at hs
          simp only [List.cons_append, youdao_to_browser, hb, hs,
            Bool.false_eq_true, if_false]
  · intro steps
    induction steps with
    | nil => exact ⟨Nat.le_refl 0, rfl⟩
    | cons st rest ih =>
      by_cases hb : st.browserClosed = true
      · simp only [youdao_to_browser, hb, if_true, List.length_cons]
        exact ⟨Nat.le_succ_of_le ih.1, ih.2⟩
      · rw [Bool.not_eq_true] at hb
        by_cases hs : st.sendOk = true
        · simp only [youdao_to_browser, hb, hs, Bool.false_eq_true, if_false,
            if_true, List.length_cons]
          exact ⟨Nat.succ_le_succ ih.1, ih.2⟩
        · rw [Bool.not_eq_true] at hs
          simp only [youdao_to_browser, hb, hs, Bool.false_eq_true, if_false,
            List.length_cons, List.length_singleton]
          exact ⟨Nat.succ_le_succ (Nat.zero_le _), trivial⟩

theorem C3_witness :
    (youdao_to_browser
        ([{ data := J.str "r", browserClosed := false, sendOk := true }]
          ++ [{ data := J.str "x", browserClosed := true, sendOk := true }])).1
      = (youdao_to_browser
          [{ data := J.str "r", browserClosed := false, sendOk := true }]).1 :=
  C3_forward_only_while_open.2.1
    [{ data := J.str "r", browserClosed := false, sendOk := true }]
    [{ data := J.str "x", browserClosed := true, sendOk := true }]
    (by intro st hst; rw [List.mem_singleton] at hst; rw [hst])

theorem recv_messages_eq (parse : String → Option J) (frames : List String)
    (ok : Bool) :
    recv_messages parse frames ok
      = frames.map (fun f => (parse f).getD (J.obj [("raw", J.str f)])) := by
  cases ok <;> rfl

/-- C4: `recv_messages` yields exactly one message per received frame, in
order: the frame's parse when parsing succeeds, otherwise the raw-fallback
wrapper `{"raw": <original frame>}`; no frame is dropped, the yield list does
not depend on how the connection later closed, and the result is total — no
parse failure raises to the consumer. -/
theorem C4_recv_no_drop (parse : String → Option J) (frames : List String)
    (ok1 ok2 : Bool) :
    (recv_messages parse frames ok1).length = frames.length ∧
    recv_messages parse frames ok1 = recv_messages parse frames ok2 ∧
    ∀ i : Nat, i < frames.length →
      (recv_messages parse frames ok1).getD i J.null
        = (parse (frames.getD i "")).getD
            (J.obj [("raw", J.str (frames.getD i ""))]) := by
  refine ⟨?_, ?_, ?_⟩
  · rw [recv_messages_eq, List.length_map]
  · rw [recv_messages_eq, recv_messages_eq]
  · intro i hi
    rw [recv_messages_eq]
    induction frames generalizing i with
    | nil => exact absurd hi (by simp)
    | cons f fs ih =>
      cases i with
      | zero => rfl
      | succ n =>
        simp only [List.map_cons, List.getD_cons_succ]
        exact ih n (by simpa using hi)

theorem C4_witness :
    (recv_messages (fun _ => none) ["hi"] true).getD 0 J.null
      = ((fun (_ : String) => (none : Option J)) (["hi"].getD 0 "")).getD
          (J.obj [("raw", J.str (["hi"].getD 0 ""))]) :=
  (C4_recv_no_drop (fun _ => none) ["hi"] true true).2.2 0 (by decide)

/-- C7 counterexample: the claim — that the endpoint extracts the language
pair from the request parameters under keys `from` and `to`, with fixed
defaults used only when the keys are absent — is false for every possible
choice of defaults: the handler's selection ignores the parameters. -/
theorem C7_counterexample :
    ¬ ∃ defFrom defTo : String, ∀ ps : List (String × String),
        translate_ws_langs ps = spec_langs defFrom defTo ps := by
  rintro ⟨defFrom, defTo, h⟩
  have h1 := h [("from", "a"), ("to", "b")]
  have h2 : spec_langs defFrom defTo [("from", "a"), ("to", "b")] = ("a", "b") := rfl
  rw [h2] at h1
  exact absurd (congrArg Prod.fst h1) (by decide)

/-- C7 amended: `translate_ws` (app.py:135-136) assigns the fixed pair
`from_lang = "zh-CHS"`, `to_lang = "en-US"` for every connection; it never
reads the request's `from`/`to` parameters. -/
theorem C7_langs_always_fixed :
    ∀ ps : List (String × String), translate_ws_langs ps = ("zh-CHS", "en-US") :=
  fun _ => rfl

/-- C8: when opening the upstream connection fails (`websockets.connect`
raises in `__aenter__`), nothing is relayed in either direction, and — via
the hosting framework, to which the escaped exception is handed — the error
is recorded and the client connection is closed. -/
theorem C8_connect_failure_aborts :
    ∀ (endSendFails : Bool) (evs : List ClientEv) (steps : List Y2BStep),
      (run_endpoint false endSendFails evs steps).result.upTrace = [] ∧
      (run_endpoint false endSendFails evs steps).result.browserTrace = [] ∧
      (run_endpoint false endSendFails evs steps).result.escaped = true ∧
      (run_endpoint false endSendFails evs steps).clientClosed = true ∧
      (run_endpoint false endSendFails evs steps).errorRecorded = true :=
  fun _ _ _ => ⟨rfl, rfl, rfl, rfl, rfl⟩

theorem utf8_append (a b : String) : utf8 (a ++ b) = utf8 a ++ utf8 b := by
  unfold utf8
  rw [String.data_append, List.flatMap_append]

/-- A lowercase hexadecimal digit: `0`-`9` or `a`-`f`. -/
def isLowerHexChar (c : Char) : Bool :=
  (48 ≤ c.toNat && c.toNat ≤ 57) || (97 ≤ c.toNat && c.toNat ≤ 102)

theorem hexChar_lower (n : Nat) (h : n < 16) : isLowerHexChar (hexChar n) = true := by
  have hall : ∀ k : Fin 16, isLowerHexChar (hexChar k.val) = true := by decide
  exact hall ⟨n, h⟩

theorem hexOfBytes_lower (bs : Bytes) :
    (hexOfBytes bs).data.all isLowerHexChar = true := by
  show (bs.flatMap hexByte).all isLowerHexChar = true
  induction bs with
  | nil => rfl
  | cons b rest ih =>
    rw [List.flatMap_cons, List.all_append, Bool.and_eq_true]
    refine ⟨?_, ih⟩
    show (isLowerHexChar (hexChar (b / 16 % 16)) && (isLowerHexChar (hexChar (b % 16)) && true)) = true
    rw [hexChar_lower _ (Nat.mod_lt _ (by omega)),
        hexChar_lower _ (Nat.mod_lt _ (by omega))]
    rfl

/-- C5: the signature computed by `build_youdao_url` equals the spec's
formula — the lowercase hex SHA-256 digest of the UTF-8 byte-string
concatenation `key ++ nonce ++ timestamp ++ secret`, in that exact order —
and every character of the rendered digest is a lowercase hex digit. -/
theorem C5_signature_formula (app_key app_secret salt curtime : String) :
    youdao_sign app_key app_secret salt curtime
      = spec_signature app_key salt curtime app_secret ∧
    (youdao_sign app_key app_secret salt curtime).data.all isLowerHexChar = true := by
  constructor
  · unfold youdao_sign sha256 spec_signature
    rw [utf8_append, utf8_append, utf8_append]
  · exact hexOfBytes_lower _

theorem flatMap_safe_id (l : List Char) (h : l.all isUrlSafe = true) :
    (l.flatMap fun c =>
      if isUrlSafe c then [c]
      else if c = ' ' then ['+']
      else (utf8Char c).flatMap pctByte) = l := by
  induction l with
  | nil => rfl
  | cons c cs ih =>
    rw [List.all_cons, Bool.and_eq_true] at h
    rw [List.flatMap_cons, if_pos h.1, ih h.2]
    rfl

theorem quote_plus_plain (s : String) (h : plainStr s = true) :
    quote_plus s = s := by
  show String.mk _ = s
  rw [flatMap_safe_id s.data h]

theorem splitOnAmp_ne_nil (l : List Char) : ∃ g gs, splitOnAmp l = g :: gs := by
  cases l with
  | nil => exact ⟨[], [], rfl⟩
  | cons c cs =>
    show ∃ g gs,
      (match splitOnAmp cs with
        | [] => [[]]
        | g :: gs => if c = '&' then [] :: g :: gs else (c :: g) :: gs) = g :: gs
    obtain ⟨g, gs, hg⟩ := splitOnAmp_ne_nil cs
    rw [hg]
    show ∃ g1 gs1, (if c = '&' then [] :: g :: gs else (c :: g) :: gs) = g1 :: gs1
    by_cases hc : c = '&'
    · rw [if_pos hc]; exact ⟨[], g :: gs, rfl⟩
    · rw [if_neg hc]; exact ⟨c :: g, gs, rfl⟩

theorem splitOnAmp_no_amp (l : List Char) (h : ∀ c ∈ l, c ≠ '&') :
    splitOnAmp l = [l] := by
  induction l with
  | nil => rfl
  | cons c cs ih =>
    show (match splitOnAmp cs with
      | [] => [[]]
      | g :: gs => if c = '&' then [] :: g :: gs else (c :: g) :: gs) = [c :: cs]
    rw [ih fun x hx => h x (List.mem_cons_of_mem c hx)]
    show (if c = '&' then [] :: cs :: ([] : List (List Char)) else (c :: cs) :: [])
      = [c :: cs]
    rw [if_neg (h c (List.mem_cons_self c cs))]

theorem splitOnAmp_append (a r : List Char) (h : ∀ c ∈ a, c ≠ '&') :
    splitOnAmp (a ++ '&' :: r) = a :: splitOnAmp r := by
  induction a with
  | nil =>
    show (match splitOnAmp r with
      | [] => [[]]
      | g :: gs => if ('&' : Char) = '&' then [] :: g :: gs else ('&' :: g) :: gs)
      = [] :: splitOnAmp r
    obtain ⟨g, gs, hg⟩ := splitOnAmp_ne_nil r
    rw [hg]
    show (if ('&' : Char) = '&' then [] :: g :: gs else ('&' :: g) :: gs)
      = [] :: g :: gs
    rw [if_pos rfl]
  | cons c cs ih =>
    show (match splitOnAmp (cs ++ '&' :: r) with
      | [] => [[]]
      | g :: gs => if c = '&' then [] :: g :: gs else (c :: g) :: gs)
      = (c :: cs) :: splitOnAmp r
    rw [ih fun x hx => h x (List.mem_cons_of_mem c hx)]
    show (if c = '&' then [] :: cs :: splitOnAmp r else (c :: cs) :: splitOnAmp r)
      = (c :: cs) :: splitOnAmp r
    rw [if_neg (h c (List.mem_cons_self c cs))]

theorem takeWhile_until_eq (k v : List Char) (h : ∀ c ∈ k, c ≠ '=') :
    (k ++ '=' :: v).takeWhile (· ≠ '=') = k := by
  induction k with
  | nil => simp [List.takeWhile]
  | cons c cs ih =>
    simp only [List.cons_append, List.takeWhile_cons]
    rw [if_pos (by simpa using h c (List.mem_cons_self c cs)),
        ih fun x hx => h x (List.mem_cons_of_mem c hx)]

theorem dropWhile_until_eq (k v : List Char) (h : ∀ c ∈ k, c ≠ '=') :
    (k ++ '=' :: v).dropWhile (· ≠ '=') = '=' :: v := by
  induction k with
  | nil => simp [List.dropWhile]
  | cons c cs ih =>
    simp only [List.cons_append, List.dropWhile_cons]
    rw [if_pos (by simpa using h c (List.mem_cons_self c cs)),
        ih fun x hx => h x (List.mem_cons_of_mem c hx)]

theorem parsePair_eq (k v : List Char) (h : ∀ c ∈ k, c ≠ '=') :
    parsePair (k ++ '=' :: v) = (String.mk k, String.mk v) := by
  unfold parsePair
  rw [takeWhile_until_eq k v h, dropWhile_until_eq k v h]
  rfl

theorem plain_no_amp (s : String) (h : plainStr s = true) :
    ∀ c ∈ s.data, c ≠ '&' := by
  intro c hc heq
  subst heq
  exact absurd (List.all_eq_true.mp h '&' hc) (by decide)

theorem plain_no_eq (s : String) (h : plainStr s = true) :
    ∀ c ∈ s.data, c ≠ '=' := by
  intro c hc heq
  subst heq
  exact absurd (List.all_eq_true.mp h '=' hc) (by decide)

theorem enc_pair_data (k v : String) (hk : plainStr k = true)
    (hv : plainStr v = true) :
    (quote_plus k ++ "=" ++ quote_plus v).data = k.data ++ '=' :: v.data := by
  rw [quote_plus_plain k hk, quote_plus_plain v hv,
      String.data_append, String.data_append]
  simp

theorem parseQuery_urlencode (ps : List (String × String)) (hne : ps ≠ [])
    (h : ∀ p ∈ ps, plainStr p.1 = true ∧ plainStr p.2 = true) :
    parseQuery (urlencode ps) = ps := by
  induction ps with
  | nil => exact absurd rfl hne
  | cons p rest ih =>
    obtain ⟨hk, hv⟩ := h p (List.mem_cons_self p rest)
    have hknoamp : ∀ c ∈ p.1.data ++ '=' :: p.2.data, c ≠ '&' := by
      intro c hc
      rcases List.mem_append.mp hc with h1 | h2
      · exact plain_no_amp p.1 hk c h1
      · rcases List.mem_cons.mp h2 with rfl | h3
        · decide
        · exact plain_no_amp p.2 hv c h3
    cases rest with
    | nil =>
      show parseQuery (quote_plus p.1 ++ "=" ++ quote_plus p.2) = [p]
      unfold parseQuery
      rw [enc_pair_data p.1 p.2 hk hv]
      rw [splitOnAmp_no_amp _ hknoamp]
      rw [List.map_singleton, parsePair_eq _ _ (plain_no_eq p.1 hk)]
    | cons q qs =>
      show parseQuery
          (quote_plus p.1 ++ "=" ++ quote_plus p.2 ++ "&" ++ urlencode (q :: qs))
        = p :: q :: qs
      have hdata :
          (quote_plus p.1 ++ "=" ++ quote_plus p.2 ++ "&" ++ urlencode (q :: qs)).data
            = (p.1.data ++ '=' :: p.2.data) ++ '&' :: (urlencode (q :: qs)).data := by
        rw [quote_plus_plain p.1 hk, quote_plus_plain p.2 hv]
        simp [String.data_append, List.append_assoc]
      unfold parseQuery
      rw [hdata, splitOnAmp_append _ _ hknoamp, List.map_cons,
          parsePair_eq _ _ (plain_no_eq p.1 hk)]
      have hrest := ih (List.cons_ne_nil q qs)
        (fun x hx => h x (List.mem_cons_of_mem p hx))
      exact congrArg (fun l => p :: l) hrest

theorem lowerHex_urlSafe (c : Char) (h : isLowerHexChar c = true) :
    isUrlSafe c = true := by
  unfold isLowerHexChar at h
  unfold isUrlSafe
  simp only [Bool.or_eq_true, Bool.and_eq_true, decide_eq_true_eq] at h ⊢
  refine Or.inl (Or.inl (Or.inl (Or.inl ?_)))
  rcases h with ⟨ha, hb⟩ | ⟨ha, hb⟩
  · exact Or.inr ⟨ha, hb⟩
  · exact Or.inl (Or.inr ⟨ha, by omega⟩)

theorem plain_sign (ak asec sl ct : String) :
    plainStr (youdao_sign ak asec sl ct) = true := by
  unfold plainStr
  rw [List.all_eq_true]
  intro c hc
  apply lowerHex_urlSafe
  exact List.all_eq_true.mp
    (hexOfBytes_lower (sha256Bytes (utf8 (ak ++ sl ++ ct ++ asec)))) c hc

/-- C6: for every credential pair and language pair (URL-safe inputs — the
sole case the program produces, since the real salt is hex and the timestamp
decimal), `build_youdao_url` yields the base upstream address, a `?`, and a
query string that decodes to exactly the parameters `appKey`, `salt`,
`curtime`, `signType = "v4"`, `sign` (the hex SHA-256 signature), `from`,
`to`, `format = "wav"`, `rate = "16000"`, `channel = "1"`, `version = "v1"`,
in that order, with no extras. -/
theorem C6_url_query_exact
    (app_key app_secret from_lang to_lang salt curtime : String)
    (h1 : plainStr app_key = true) (h2 : plainStr salt = true)
    (h3 : plainStr curtime = true) (h4 : plainStr from_lang = true)
    (h5 : plainStr to_lang = true) :
    ∃ q : String,
      build_youdao_url app_key app_secret from_lang to_lang salt curtime
        = YOUDAO_WS_BASE ++ "?" ++ q ∧
      parseQuery q =
        [("appKey", app_key), ("salt", salt), ("curtime", curtime),
         ("signType", "v4"),
         ("sign", youdao_sign app_key app_secret salt curtime),
         ("from", from_lang), ("to", to_lang), ("format", "wav"),
         ("rate", "16000"), ("channel", "1"), ("version", "v1")] := by
  refine ⟨urlencode
    [("appKey", app_key), ("salt", salt), ("curtime", curtime),
     ("signType", "v4"),
     ("sign", youdao_sign app_key app_secret salt curtime),
     ("from", from_lang), ("to", to_lang), ("format", "wav"),
     ("rate", "16000"), ("channel", "1"), ("version", "v1")], rfl, ?_⟩
  apply parseQuery_urlencode
  · exact List.cons_ne_nil _ _
  · intro p hp
    simp only [List.mem_cons, List.not_mem_nil, or_false] at hp
    rcases hp with rfl | rfl | rfl | rfl | rfl | rfl | rfl | rfl | rfl | rfl | rfl
    · exact ⟨(by decide : plainStr "appKey" = true), h1⟩
    · exact ⟨(by decide : plainStr "salt" = true), h2⟩
    · exact ⟨(by decide : plainStr "curtime" = true), h3⟩
    · exact ⟨(by decide : plainStr "signType" = true),
        (by decide : plainStr "v4" = true)⟩
    · exact ⟨(by decide : plainStr "sign" = true),
        plain_sign app_key app_secret salt curtime⟩
    · exact ⟨(by decide : plainStr "from" = true), h4⟩
    · exact ⟨(by decide : plainStr "to" = true), h5⟩
    · exact ⟨(by decide : plainStr "format" = true),
        (by decide : plainStr "wav" = true)⟩
    · exact ⟨(by decide : plainStr "rate" = true),
        (by decide : plainStr "16000" = true)⟩
    · exact ⟨(by decide : plainStr "channel" = true),
        (by decide : plainStr "1" = true)⟩
    · exact ⟨(by decide : plainStr "version" = true),
        (by decide : plainStr "v1" = true)⟩

theorem C6_witness :
    ∃ q : String,
      build_youdao_url "ak" "sec" "en-US" "zh-CHS" "5f2c" "1700000000"
        = YOUDAO_WS_BASE ++ "?" ++ q ∧
      parseQuery q =
        [("appKey", "ak"), ("salt", "5f2c"), ("curtime", "1700000000"),
         ("signType", "v4"),
         ("sign", youdao_sign "ak" "sec" "5f2c" "1700000000"),
         ("from", "en-US"), ("to", "zh-CHS"), ("format", "wav"),
         ("rate", "16000"), ("channel", "1"), ("version", "v1")] :=
  C6_url_query_exact "ak" "sec" "en-US" "zh-CHS" "5f2c" "1700000000"
    (by decide) (by decide) (by decide) (by decide) (by decide)
